import Mathlib

/-!
Verification development for the target cache module of an event gateway
(src/targetcache/cache.go).  The module maintains four in-memory caches that
mirror an upstream configuration store: a function cache, an endpoint cache,
a publisher index cache (primary map plus two directional multi-maps) and a
subscriber index cache (one multi-map).

Modelling choices, stated once here:

Go maps keyed by string-typed identifiers (FunctionID, EndpointID,
PublisherID, TopicID are all string types) are embedded as association
lists `List (String × V)` with at most the observations the code performs:
lookup, in-place assignment, and key deletion.  `mset` replaces a binding in
place (or appends) exactly as Go's `m[k] = v` does up to the (unobservable)
iteration order of a Go map; `mdel` is Go's `delete(m, k)`.

A Go `map` value may be nil: reading a nil map yields the zero value with
`exists = false`, while writing to a nil map is a runtime panic that aborts
the process.  The publisher cache's primary map is the one map the code can
leave nil (its constructor does not initialize it), so that field is
embedded as `Option (List (String × Publisher))` with `none` for nil, and
`publisherCache.Set` returns `Option publisherCache`, `none` meaning the
nil-map-write panic.

JSON deserialization of an untrusted payload (`json.NewDecoder(...).Decode`)
is embedded by its result: an operation taking raw bytes `v []byte` takes
`Option E` here, `some e` when the bytes decode to the entity `e` and `none`
when deserialization fails.

Logging (`zap.Logger`) is an external observability channel and is not part
of any cache's state; log calls are therefore not modelled.
-/

namespace Targetcache

/-- Lookup in the association-list model of a Go map: the value bound to
key `k`, if any. -/
def mget {V : Type} (k : String) : List (String × V) → Option V
  | [] => none
  | e :: t => if e.1 = k then some e.2 else mget k t

/-- Go map assignment `m[k] = v`: replace the binding for `k` in place if
present, otherwise add it. -/
def mset {V : Type} (k : String) (v : V) : List (String × V) → List (String × V)
  | [] => [(k, v)]
  | e :: t => if e.1 = k then (k, v) :: t else e :: mset k v t

/-- Go `delete(m, k)`: remove the binding for `k` (a no-op when absent). -/
def mdel {V : Type} (k : String) : List (String × V) → List (String × V)
  | [] => []
  | e :: t => if e.1 = k then mdel k t else e :: mdel k t

/-- Lookup through a possibly-nil Go map (`Option` of the list model):
reading a nil map yields absent, never a panic. -/
def mgetN {V : Type} (k : String) : Option (List (String × V)) → Option V
  | none => none
  | some m => mget k m

/-- Go set insertion `s[x] = struct\x7b\x7d{}` on a set represented as a
duplicate-free list. -/
def sinsert (x : String) (s : List String) : List String :=
  if x ∈ s then s else x :: s

/-- Go set removal `delete(s, x)`. -/
def serase (x : String) : List String → List String
  | [] => []
  | y :: t => if y = x then serase x t else y :: serase x t

/-- Membership of `elem` in the set bound to `key` in a multi-map: the
observation the derived indices exist to answer. -/
def mmHas (key elem : String) (mm : List (String × List String)) : Bool :=
  match mget key mm with
  | some s => decide (elem ∈ s)
  | none => false

theorem mget_mset_self {V : Type} (k : String) (v : V) (m : List (String × V)) :
    mget k (mset k v m) = some v := by
  induction m with
  | nil => simp [mget, mset]
  | cons e t ih =>
    by_cases h : e.1 = k
    · simp [mset, h, mget]
    · simp [mset, h, mget, ih]

theorem mget_mset_ne {V : Type} (k k' : String) (v : V) (m : List (String × V))
    (h : k' ≠ k) : mget k' (mset k v m) = mget k' m := by
  induction m with
  | nil =>
    simp only [mset, mget]
    rw [if_neg (fun hh : k = k' => h hh.symm)]
  | cons e t ih =>
    by_cases he : e.1 = k
    · have hek : ¬ (e.1 = k') := by rw [he]; exact fun hh => h hh.symm
      simp only [mset, if_pos he, mget]
      rw [if_neg (fun hh : k = k' => h hh.symm), if_neg hek]
    · by_cases he' : e.1 = k'
      · simp only [mset, if_neg he, mget, if_pos he']
      · simp only [mset, if_neg he, mget, if_neg he', ih]

theorem mset_mset {V : Type} (k : String) (v w : V) (m : List (String × V)) :
    mset k v (mset k w m) = mset k v m := by
  induction m with
  | nil => simp [mset]
  | cons e t ih =>
    by_cases h : e.1 = k
    · simp [mset, h]
    · simp [mset, h, ih]

theorem mset_eq_self {V : Type} (k : String) (v : V) (m : List (String × V))
    (h : mget k m = some v) : mset k v m = m := by
  induction m with
  | nil => simp [mget] at h
  | cons e t ih =>
    by_cases he : e.1 = k
    · simp only [mget, if_pos he] at h
      have h2 : e.2 = v := by injection h
      simp only [mset, if_pos he]
      have : (k, v) = e := by
        cases e with
        | mk a b =>
          simp only at he h2
          rw [he, h2]
      rw [this]
    · simp only [mget, if_neg he] at h
      simp only [mset, if_neg he, ih h]

theorem mget_mdel_self {V : Type} (k : String) (m : List (String × V)) :
    mget k (mdel k m) = none := by
  induction m with
  | nil => simp [mget, mdel]
  | cons e t ih =>
    by_cases h : e.1 = k
    · simp [mdel, h, ih]
    · simp [mdel, h, mget, ih]

theorem mget_mdel_ne {V : Type} (k k' : String) (m : List (String × V))
    (h : k' ≠ k) : mget k' (mdel k m) = mget k' m := by
  induction m with
  | nil => simp [mdel]
  | cons e t ih =>
    by_cases he : e.1 = k
    · simp only [mdel, if_pos he, ih, mget]
      rw [if_neg (show ¬ (e.1 = k') by rw [he]; exact fun hh => h hh.symm)]
    · simp only [mdel, if_neg he, mget, ih]

theorem mdel_eq_self {V : Type} (k : String) (m : List (String × V))
    (h : mget k m = none) : mdel k m = m := by
  induction m with
  | nil => simp [mdel]
  | cons e t ih =>
    by_cases he : e.1 = k
    · simp [mget, he] at h
    · simp [mget, he] at h
      simp [mdel, he, ih h]

theorem mem_mset {V : Type} (k : String) (v : V) (m : List (String × V))
    (e : String × V) (he : e ∈ mset k v m) : e = (k, v) ∨ e ∈ m := by
  induction m with
  | nil => simp [mset] at he; simp [he]
  | cons f t ih =>
    by_cases h : f.1 = k
    · simp [mset, h] at he
      rcases he with he | he
      · exact Or.inl he
      · exact Or.inr (List.mem_cons_of_mem f he)
    · simp [mset, h] at he
      rcases he with he | he
      · exact Or.inr (by simp [he])
      · rcases ih he with h' | h'
        · exact Or.inl h'
        · exact Or.inr (List.mem_cons_of_mem f h')

theorem mem_mdel {V : Type} (k : String) (m : List (String × V))
    (e : String × V) (he : e ∈ mdel k m) : e ∈ m := by
  induction m with
  | nil => simp [mdel] at he
  | cons f t ih =>
    by_cases h : f.1 = k
    · simp [mdel, h] at he
      exact List.mem_cons_of_mem f (ih he)
    · simp [mdel, h] at he
      rcases he with he | he
      · simp [he]
      · exact List.mem_cons_of_mem f (ih he)

theorem mget_mem {V : Type} (k : String) (v : V) (m : List (String × V))
    (h : mget k m = some v) : (k, v) ∈ m := by
  induction m with
  | nil => simp [mget] at h
  | cons e t ih =>
    by_cases he : e.1 = k
    · simp only [mget, if_pos he] at h
      have h2 : e.2 = v := by injection h
      have : (k, v) = e := by
        cases e with
        | mk a b =>
          simp only at he h2
          rw [he, h2]
      rw [this]
      exact List.mem_cons_self e t
    · simp only [mget, if_neg he] at h
      exact List.mem_cons_of_mem e (ih h)

theorem mem_sinsert (x y : String) (s : List String) :
    y ∈ sinsert x s ↔ y = x ∨ y ∈ s := by
  unfold sinsert
  by_cases h : x ∈ s
  · simp [h]
    intro hy
    rw [hy]; exact h
  · simp [h]

theorem sinsert_ne_nil (x : String) (s : List String) : sinsert x s ≠ [] := by
  unfold sinsert
  by_cases h : x ∈ s
  · simp [h]
    exact List.ne_nil_of_mem h
  · simp [h]

theorem not_mem_serase_self (x : String) (s : List String) : x ∉ serase x s := by
  induction s with
  | nil => simp [serase]
  | cons y t ih =>
    by_cases h : y = x
    · simp [serase, h, ih]
    · simp [serase, h, ih]
      exact fun hh => h hh.symm

theorem serase_eq_self (x : String) (s : List String) (h : x ∉ s) :
    serase x s = s := by
  induction s with
  | nil => simp [serase]
  | cons y t ih =>
    simp at h
    have hy : ¬ (y = x) := fun hh => h.1 hh.symm
    simp [serase, hy, ih h.2]

theorem serase_serase (x : String) (s : List String) :
    serase x (serase x s) = serase x s :=
  serase_eq_self x (serase x s) (not_mem_serase_self x s)

theorem mmHas_of_mget_some (key elem : String) (mm : List (String × List String))
    (s : List String) (h : mget key mm = some s) :
    mmHas key elem mm = (decide (elem ∈ s)) := by
  unfold mmHas
  rw [h]

theorem mmHas_of_mget_none (key elem : String) (mm : List (String × List String))
    (h : mget key mm = none) : mmHas key elem mm = false := by
  unfold mmHas
  rw [h]

/-- Modelled from the spec: the `functions` package is not under src/.  A
Function is an opaque, JSON-decodable descriptor; its content is irrelevant
to the cache beyond identity. -/
structure Function where
  descriptor : String
deriving DecidableEq

/-- Modelled from the spec: the `endpoints` package is not under src/.  An
Endpoint is an opaque, JSON-decodable descriptor of an HTTP trigger. -/
structure Endpoint where
  descriptor : String
deriving DecidableEq

/-- Modelled from the spec: `pubsub.Input`, a directionality tag value.  The
tag type admits values other than Input and Output (cache.go handles that
case explicitly), so it is modelled as String with two distinguished,
distinct constants. -/
def Input : String := "input"

/-- Modelled from the spec: `pubsub.Output`, the other directionality tag. -/
def Output : String := "output"

/-- Modelled from the spec: `pubsub.Publisher`, a publisher binding
associating a FunctionID with a TopicID and a FunctionEnd tag. -/
structure Publisher where
  FunctionID : String
  TopicID : String
  FunctionEnd : String
deriving DecidableEq

/-- Modelled from the spec: `pubsub.Subscriber`, a subscriber binding
carrying a TopicID and a FunctionID. -/
structure Subscriber where
  TopicID : String
  FunctionID : String
deriving DecidableEq

/-- functionCache (cache.go lines 47-52): a map from FunctionID to Function. -/
structure functionCache where
  cache : List (String × Function)
deriving DecidableEq

/-- newFunctionCache (cache.go lines 54-59): the cache map is initialized. -/
def newFunctionCache : functionCache :=
  { cache := [] }

/-- functionCache.Set (cache.go lines 61-71): decode the payload; on failure
log and leave the state unchanged, on success store the value under the key. -/
def functionCache.Set (c : functionCache) (k : String) (v : Option Function) :
    functionCache :=
  match v with
  | none => c
  | some f => { c with cache := mset k f c.cache }

/-- functionCache.Del (cache.go lines 73-77): delete the key; the payload is
ignored. -/
def functionCache.Del (c : functionCache) (k : String) (v : Option Function) :
    functionCache :=
  { c with cache := mdel k c.cache }

/-- endpointCache (cache.go lines 79-84): a map from EndpointID to Endpoint. -/
structure endpointCache where
  cache : List (String × Endpoint)
deriving DecidableEq

/-- newEndpointCache (cache.go lines 86-91). -/
def newEndpointCache : endpointCache :=
  { cache := [] }

/-- endpointCache.Set (cache.go lines 93-103). -/
def endpointCache.Set (c : endpointCache) (k : String) (v : Option Endpoint) :
    endpointCache :=
  match v with
  | none => c
  | some e => { c with cache := mset k e c.cache }

/-- endpointCache.Del (cache.go lines 105-109): the payload is ignored. -/
def endpointCache.Del (c : endpointCache) (k : String) (v : Option Endpoint) :
    endpointCache :=
  { c with cache := mdel k c.cache }

/-- publisherCache (cache.go lines 111-124): the primary map from
PublisherID to Publisher plus the two directional multi-maps.  The primary
map is `Option`-wrapped because the constructor leaves it nil. -/
structure publisherCache where
  cache : Option (List (String × Publisher))
  fnInToTopic : List (String × List String)
  fnOutToTopic : List (String × List String)
deriving DecidableEq

/-- newPublisherCache (cache.go lines 126-132): initializes fnInToTopic and
fnOutToTopic but NOT the primary `cache` map, which is therefore nil. -/
def newPublisherCache : publisherCache :=
  { cache := none
    fnInToTopic := []
    fnOutToTopic := [] }

/-- A publisher cache whose primary map has been initialized (the state the
other three constructors produce for their maps); used to exercise the
post-decode logic of Set, which on the literal constructor state panics. -/
def initializedPublisherCache : publisherCache :=
  { cache := some []
    fnInToTopic := []
    fnOutToTopic := [] }

/-- publisherCache.Set (cache.go lines 134-168).  Decode failure returns with
no mutation.  On success the code executes `c.cache[PublisherID(k)] = p`: an
assignment to an entry in a nil map is a Go runtime panic, modelled as the
result `none`.  Otherwise the primary map is updated and, when FunctionEnd
is Input or Output, the (FunctionID, TopicID) pair is inserted into the
matching multi-map (creating the topic set if absent); for any other tag the
code only logs, leaving both multi-maps untouched. -/
def publisherCache.Set (c : publisherCache) (k : String) (v : Option Publisher) :
    Option publisherCache :=
  match v with
  | none => some c
  | some p =>
    match c.cache with
    | none => none
    | some m =>
      let m' := mset k p m
      if p.FunctionEnd = Input then
        match mget p.FunctionID c.fnInToTopic with
        | some pubSet0 =>
          some { c with cache := some m'
                        fnInToTopic := mset p.FunctionID (sinsert p.TopicID pubSet0) c.fnInToTopic }
        | none =>
          some { c with cache := some m'
                        fnInToTopic := mset p.FunctionID [p.TopicID] c.fnInToTopic }
      else if p.FunctionEnd = Output then
        match mget p.FunctionID c.fnOutToTopic with
        | some pubSet0 =>
          some { c with cache := some m'
                        fnOutToTopic := mset p.FunctionID (sinsert p.TopicID pubSet0) c.fnOutToTopic }
        | none =>
          some { c with cache := some m'
                        fnOutToTopic := mset p.FunctionID [p.TopicID] c.fnOutToTopic }
      else
        some { c with cache := some m' }

/-- publisherCache.Del (cache.go lines 170-200).  The payload is not decoded
and not used; the binding previously stored under the key is authoritative.
When the key is absent the call returns immediately.  Otherwise the stored
binding's (FunctionID, TopicID) pair is removed from the multi-map matching
its FunctionEnd, deleting the topic set when it becomes empty.  Note the
function never removes the key from the primary map itself. -/
def publisherCache.Del (c : publisherCache) (k : String) (v : Option Publisher) :
    publisherCache :=
  match mgetN k c.cache with
  | none => c
  | some oldProd =>
    if oldProd.FunctionEnd = Input then
      match mget oldProd.FunctionID c.fnInToTopic with
      | some inTopicSet =>
        let s := serase oldProd.TopicID inTopicSet
        if s = [] then { c with fnInToTopic := mdel oldProd.FunctionID c.fnInToTopic }
        else { c with fnInToTopic := mset oldProd.FunctionID s c.fnInToTopic }
      | none => c
    else if oldProd.FunctionEnd = Output then
      match mget oldProd.FunctionID c.fnOutToTopic with
      | some outTopicSet =>
        let s := serase oldProd.TopicID outTopicSet
        if s = [] then { c with fnOutToTopic := mdel oldProd.FunctionID c.fnOutToTopic }
        else { c with fnOutToTopic := mset oldProd.FunctionID s c.fnOutToTopic }
      | none => c
    else c

/-- subscriberCache (cache.go lines 202-207): one multi-map from TopicID to
the set of subscribing FunctionIDs. -/
structure subscriberCache where
  topicToFns : List (String × List String)
deriving DecidableEq

/-- newSubscriberCache (cache.go lines 209-215). -/
def newSubscriberCache : subscriberCache :=
  { topicToFns := [] }

/-- subscriberCache.Set (cache.go lines 217-237): decode failure leaves the
state unchanged; on success insert the FunctionID into the topic's set,
creating the set when absent.  The key argument is never used. -/
def subscriberCache.Set (c : subscriberCache) (k : String) (v : Option Subscriber) :
    subscriberCache :=
  match v with
  | none => c
  | some s =>
    match mget s.TopicID c.topicToFns with
    | some fnSet =>
      { c with topicToFns := mset s.TopicID (sinsert s.FunctionID fnSet) c.topicToFns }
    | none =>
      { c with topicToFns := mset s.TopicID [s.FunctionID] c.topicToFns }

/-- subscriberCache.Del (cache.go lines 239-257): decode the caller-supplied
payload (under the lock, unlike every other method); on failure leave the
state unchanged.  On success remove the FunctionID from the topic's set and
delete the set when it becomes empty.  The key argument is never used. -/
def subscriberCache.Del (c : subscriberCache) (k : String) (v : Option Subscriber) :
    subscriberCache :=
  match v with
  | none => c
  | some oldSub =>
    match mget oldSub.TopicID c.topicToFns with
    | some fnSet =>
      let s := serase oldSub.FunctionID fnSet
      if s = [] then { c with topicToFns := mdel oldSub.TopicID c.topicToFns }
      else { c with topicToFns := mset oldSub.TopicID s c.topicToFns }
    | none => c

theorem input_ne_output : Input ≠ Output := by decide

/-- The multi-map insertion step both index caches perform: add `elem` to
the set bound to `key`, creating the set when absent.  The cache methods
inline this block (cache.go lines 147-164 and 229-236); the lemma
`subSet_eq` and `pubSet_eq` below relate the inlined code to this
definition. -/
def mmInsert (key elem : String) (mm : List (String × List String)) :
    List (String × List String) :=
  match mget key mm with
  | some s => mset key (sinsert elem s) mm
  | none => mset key [elem] mm

/-- The multi-map removal step both index caches perform: remove `elem` from
the set bound to `key`, deleting the set entirely when it becomes empty
(cache.go lines 179-196 and 250-257). -/
def mmRemove (key elem : String) (mm : List (String × List String)) :
    List (String × List String) :=
  match mget key mm with
  | some s =>
    let s' := serase elem s
    if s' = [] then mdel key mm else mset key s' mm
  | none => mm

theorem mmHas_mset_self (key b : String) (s : List String)
    (mm : List (String × List String)) :
    mmHas key b (mset key s mm) = decide (b ∈ s) := by
  unfold mmHas
  rw [mget_mset_self]

theorem mmHas_mset_ne (key a b : String) (s : List String)
    (mm : List (String × List String)) (ha : a ≠ key) :
    mmHas a b (mset key s mm) = mmHas a b mm := by
  unfold mmHas
  rw [mget_mset_ne _ _ _ _ ha]

theorem mmHas_mdel_self (key b : String) (mm : List (String × List String)) :
    mmHas key b (mdel key mm) = false := by
  unfold mmHas
  rw [mget_mdel_self]

theorem mmHas_mdel_ne (key a b : String) (mm : List (String × List String))
    (ha : a ≠ key) : mmHas a b (mdel key mm) = mmHas a b mm := by
  unfold mmHas
  rw [mget_mdel_ne _ _ _ ha]

theorem mmHas_mmInsert (key elem a b : String) (mm : List (String × List String)) :
    mmHas a b (mmInsert key elem mm) = true ↔
      ((a = key ∧ b = elem) ∨ mmHas a b mm = true) := by
  unfold mmInsert
  by_cases ha : a = key
  · subst ha
    cases hs : mget a mm with
    | some s =>
      rw [mmHas_mset_self]
      rw [mmHas_of_mget_some _ b _ s hs]
      simp [mem_sinsert]
    | none =>
      rw [mmHas_mset_self]
      rw [mmHas_of_mget_none _ b _ hs]
      simp
  · cases hs : mget key mm with
    | some s =>
      rw [mmHas_mset_ne _ _ _ _ _ ha]
      simp [ha]
    | none =>
      rw [mmHas_mset_ne _ _ _ _ _ ha]
      simp [ha]

theorem mmHas_mmRemove_self (key elem : String) (mm : List (String × List String)) :
    mmHas key elem (mmRemove key elem mm) = false := by
  unfold mmRemove
  cases hs : mget key mm with
  | some s =>
    by_cases hnil : serase elem s = []
    · simp only [if_pos hnil]
      exact mmHas_mdel_self _ _ _
    · simp only [if_neg hnil]
      rw [mmHas_mset_self]
      exact decide_eq_false (not_mem_serase_self elem s)
  | none => exact mmHas_of_mget_none _ _ _ hs

theorem mmRemove_mmRemove (key elem : String) (mm : List (String × List String)) :
    mmRemove key elem (mmRemove key elem mm) = mmRemove key elem mm := by
  unfold mmRemove
  cases hs : mget key mm with
  | some s =>
    by_cases hnil : serase elem s = []
    · simp only [if_pos hnil]
      rw [mget_mdel_self]
    · simp only [if_neg hnil]
      rw [mget_mset_self]
      show (if serase elem (serase elem s) = []
            then mdel key (mset key (serase elem s) mm)
            else mset key (serase elem (serase elem s)) (mset key (serase elem s) mm))
          = mset key (serase elem s) mm
      rw [serase_serase]
      rw [if_neg hnil]
      exact mset_mset _ _ _ _
  | none =>
    rw [hs]

theorem mmRemove_eq_self (key elem : String) (mm : List (String × List String))
    (hwf : ∀ e ∈ mm, e.2 ≠ []) (habs : mmHas key elem mm = false) :
    mmRemove key elem mm = mm := by
  unfold mmRemove
  cases hs : mget key mm with
  | some s =>
    have hdec : decide (elem ∈ s) = false := by
      rw [← mmHas_of_mget_some key elem mm s hs]
      exact habs
    have hmem : elem ∉ s := of_decide_eq_false hdec
    have hne : s ≠ [] := hwf (key, s) (mget_mem _ _ _ hs)
    show (if serase elem s = [] then mdel key mm else mset key (serase elem s) mm) = mm
    rw [serase_eq_self _ _ hmem]
    rw [if_neg hne]
    exact mset_eq_self _ _ _ hs
  | none => rfl

/-- Well-formedness of a derived multi-map: no key is bound to an empty
set. -/
@[reducible] def WFmm (mm : List (String × List String)) : Prop :=
  ∀ e ∈ mm, e.2 ≠ []

theorem WFmm_mset (key : String) (s : List String)
    (mm : List (String × List String)) (h : WFmm mm) (hs : s ≠ []) :
    WFmm (mset key s mm) := by
  intro e he
  rcases mem_mset key s mm e he with heq | hmem
  · rw [heq]
    exact hs
  · exact h e hmem

theorem WFmm_mdel (key : String) (mm : List (String × List String))
    (h : WFmm mm) : WFmm (mdel key mm) :=
  fun e he => h e (mem_mdel key mm e he)

theorem WFmm_mmInsert (key elem : String) (mm : List (String × List String))
    (h : WFmm mm) : WFmm (mmInsert key elem mm) := by
  unfold mmInsert
  cases hs : mget key mm with
  | some s => exact WFmm_mset _ _ _ h (sinsert_ne_nil elem s)
  | none => exact WFmm_mset _ _ _ h (by simp)

theorem WFmm_mmRemove (key elem : String) (mm : List (String × List String))
    (h : WFmm mm) : WFmm (mmRemove key elem mm) := by
  unfold mmRemove
  cases hs : mget key mm with
  | some s =>
    by_cases hnil : serase elem s = []
    · simp only [if_pos hnil]
      exact WFmm_mdel _ _ h
    · simp only [if_neg hnil]
      exact WFmm_mset _ _ _ h hnil
  | none => exact h

theorem subSet_eq (c : subscriberCache) (k : String) (s : Subscriber) :
    subscriberCache.Set c k (some s)
      = { c with topicToFns := mmInsert s.TopicID s.FunctionID c.topicToFns } := by
  cases h : mget s.TopicID c.topicToFns with
  | some fnSet => simp only [subscriberCache.Set, mmInsert, h]
  | none => simp only [subscriberCache.Set, mmInsert, h]

theorem subDel_eq (c : subscriberCache) (k : String) (s : Subscriber) :
    subscriberCache.Del c k (some s)
      = { c with topicToFns := mmRemove s.TopicID s.FunctionID c.topicToFns } := by
  cases h : mget s.TopicID c.topicToFns with
  | some fnSet =>
    simp only [subscriberCache.Del, mmRemove, h]
    by_cases hnil : serase s.FunctionID fnSet = []
    · simp only [if_pos hnil]
    · simp only [if_neg hnil]
  | none => simp only [subscriberCache.Del, mmRemove, h]

theorem pubSet_eq (c : publisherCache) (m : List (String × Publisher))
    (k : String) (p : Publisher) (hm : c.cache = some m) :
    publisherCache.Set c k (some p) = some
      { cache := some (mset k p m)
        fnInToTopic := if p.FunctionEnd = Input
          then mmInsert p.FunctionID p.TopicID c.fnInToTopic
          else c.fnInToTopic
        fnOutToTopic := if p.FunctionEnd = Output
          then mmInsert p.FunctionID p.TopicID c.fnOutToTopic
          else c.fnOutToTopic } := by
  unfold publisherCache.Set mmInsert
  rw [hm]
  by_cases hIn : p.FunctionEnd = Input
  · have hOut : ¬ p.FunctionEnd = Output := by rw [hIn]; exact input_ne_output
    simp only [if_pos hIn, if_neg hOut]
    cases mget p.FunctionID c.fnInToTopic <;> rfl
  · by_cases hOut : p.FunctionEnd = Output
    · simp only [if_neg hIn, if_pos hOut]
      cases mget p.FunctionID c.fnOutToTopic <;> rfl
    · simp only [if_neg hIn, if_neg hOut]

theorem pubDel_none (c : publisherCache) (k : String) (v : Option Publisher)
    (hp : mgetN k c.cache = none) : publisherCache.Del c k v = c := by
  unfold publisherCache.Del
  rw [hp]

theorem pubDel_eq (c : publisherCache) (k : String) (v : Option Publisher)
    (p : Publisher) (hp : mgetN k c.cache = some p) :
    publisherCache.Del c k v
      = { c with
          fnInToTopic := if p.FunctionEnd = Input
            then mmRemove p.FunctionID p.TopicID c.fnInToTopic
            else c.fnInToTopic
          fnOutToTopic := if p.FunctionEnd = Output
            then mmRemove p.FunctionID p.TopicID c.fnOutToTopic
            else c.fnOutToTopic } := by
  unfold publisherCache.Del mmRemove
  rw [hp]
  by_cases hIn : p.FunctionEnd = Input
  · have hOut : ¬ p.FunctionEnd = Output := by rw [hIn]; exact input_ne_output
    simp only [if_pos hIn, if_neg hOut]
    cases mget p.FunctionID c.fnInToTopic with
    | none => rfl
    | some s =>
      by_cases hnil : serase p.TopicID s = []
      · simp only [if_pos hnil]
      · simp only [if_neg hnil]
  · by_cases hOut : p.FunctionEnd = Output
    · simp only [if_neg hIn, if_pos hOut]
      cases mget p.FunctionID c.fnOutToTopic with
      | none => rfl
      | some s =>
        by_cases hnil : serase p.TopicID s = []
        · simp only [if_pos hnil]
        · simp only [if_neg hnil]
    · simp only [if_neg hIn, if_neg hOut]

theorem pubDel_cache_eq (c : publisherCache) (k : String) (v : Option Publisher) :
    (publisherCache.Del c k v).cache = c.cache := by
  cases hp : mgetN k c.cache with
  | none => rw [pubDel_none c k v hp]
  | some p => rw [pubDel_eq c k v p hp]

/-- An event relevant to the lock discipline of a cache method: deserializing
the untrusted payload, or acquiring the cache's exclusive write lock.  Each
method's program-order sequence of these two event kinds is transcribed
below from cache.go; branches never reorder them, so one list per method
suffices. -/
inductive LockEvent where
  | deserializePayload
  | acquireWriteLock
deriving DecidableEq

/-- functionCache.Set: decode at line 63, Lock() at line 67. -/
def functionCacheSetTrace : List LockEvent :=
  [LockEvent.deserializePayload, LockEvent.acquireWriteLock]

/-- functionCache.Del: Lock() at line 74, no deserialization. -/
def functionCacheDelTrace : List LockEvent :=
  [LockEvent.acquireWriteLock]

/-- endpointCache.Set: decode at line 95, Lock() at line 99. -/
def endpointCacheSetTrace : List LockEvent :=
  [LockEvent.deserializePayload, LockEvent.acquireWriteLock]

/-- endpointCache.Del: Lock() at line 106, no deserialization. -/
def endpointCacheDelTrace : List LockEvent :=
  [LockEvent.acquireWriteLock]

/-- publisherCache.Set: decode at line 136, Lock() at line 142. -/
def publisherCacheSetTrace : List LockEvent :=
  [LockEvent.deserializePayload, LockEvent.acquireWriteLock]

/-- publisherCache.Del: Lock() at line 171, no deserialization. -/
def publisherCacheDelTrace : List LockEvent :=
  [LockEvent.acquireWriteLock]

/-- subscriberCache.Set: decode at line 219, Lock() at line 225. -/
def subscriberCacheSetTrace : List LockEvent :=
  [LockEvent.deserializePayload, LockEvent.acquireWriteLock]

/-- subscriberCache.Del: Lock() at line 240 comes FIRST, the payload decode
at line 244 happens while the write lock is held. -/
def subscriberCacheDelTrace : List LockEvent :=
  [LockEvent.acquireWriteLock, LockEvent.deserializePayload]

/-- Every deserialization event in the trace happens strictly before every
write-lock acquisition, i.e. no lock is held across a deserialization. -/
@[reducible] def deserializePrecedesLock (tr : List LockEvent) : Prop :=
  ∀ i j : Fin tr.length, tr.get i = LockEvent.deserializePayload →
    tr.get j = LockEvent.acquireWriteLock → i.val < j.val

/-- The exact-image invariant of the publisher cache: a (function, topic)
pair is in the input multi-map iff some binding in the primary map carries
that FunctionID, that TopicID and FunctionEnd = Input, and symmetrically
for the output multi-map. -/
def InvP (c : publisherCache) : Prop :=
  (∀ fn t : String, mmHas fn t c.fnInToTopic = true ↔
    ∃ k p, mgetN k c.cache = some p ∧ p.FunctionID = fn ∧ p.TopicID = t ∧
      p.FunctionEnd = Input) ∧
  (∀ fn t : String, mmHas fn t c.fnOutToTopic = true ↔
    ∃ k p, mgetN k c.cache = some p ∧ p.FunctionID = fn ∧ p.TopicID = t ∧
      p.FunctionEnd = Output)

/-- One Set or Del call on the publisher cache, with the payload given as
its decode result. -/
inductive PubOp where
  | set (k : String) (v : Option Publisher)
  | del (k : String) (v : Option Publisher)

/-- Run a sequence of publisher cache operations left to right; a panic
(`none`) aborts the whole run. -/
def runPubOps (c : Option publisherCache) : List PubOp → Option publisherCache
  | [] => c
  | PubOp.set k v :: rest =>
    match c with
    | none => none
    | some c0 => runPubOps (publisherCache.Set c0 k v) rest
  | PubOp.del k v :: rest =>
    match c with
    | none => none
    | some c0 => runPubOps (some (publisherCache.Del c0 k v)) rest

/-- C1: the claim says Set and Del never abort the hosting process and that
the first successful Set on a freshly constructed publisher cache stores the
binding.  On the code, newPublisherCache (lines 126-132) initializes the two
multi-maps but not the primary `cache` map, so the first Set whose payload
decodes executes `c.cache[pubsub.PublisherID(k)] = p` (line 145) on a nil
map — a runtime panic (modelled as `none`), aborting the process instead of
storing the binding. -/
theorem C1_fresh_publisher_set_panics :
    publisherCache.Set newPublisherCache "pub1" (some ⟨"f1", "t1", Input⟩)
      = none := rfl

/-- C5: a payload that fails to deserialize leaves every cache exactly
unchanged: Set of every cache, and Del of the subscriber cache (the only Del
that deserializes), are identities on the state when the decode fails. -/
theorem C5_malformed_payload_noop :
    (∀ k c, functionCache.Set c k none = c) ∧
    (∀ k c, endpointCache.Set c k none = c) ∧
    (∀ k c, publisherCache.Set c k none = some c) ∧
    (∀ k c, subscriberCache.Set c k none = c) ∧
    (∀ k c, subscriberCache.Del c k none = c) :=
  ⟨fun _ _ => rfl, fun _ _ => rfl, fun _ _ => rfl, fun _ _ => rfl,
    fun _ _ => rfl⟩

/-- C10: the subscriber cache's resulting state after Set or Del depends
only on the payload, never on the key argument, which the code ignores
except in log messages. -/
theorem C10_subscriber_key_independent (k1 k2 : String) (v : Option Subscriber)
    (c : subscriberCache) :
    subscriberCache.Set c k1 v = subscriberCache.Set c k2 v ∧
    subscriberCache.Del c k1 v = subscriberCache.Del c k2 v :=
  ⟨rfl, rfl⟩

/-- C9 counterexample: in subscriberCache.Del the write lock is acquired at
line 240 and the payload is deserialized at line 244, so deserialization
does not precede the lock there, refuting the claim that every Set and Del
deserializes before acquiring the lock. -/
theorem C9_counterexample : ¬ deserializePrecedesLock subscriberCacheDelTrace := by
  decide

/-- C9 amended: in every Set of every cache the payload is deserialized
before the write lock is acquired, and the three Del methods that do not
deserialize trivially hold no lock across a deserialization; the one
exception is subscriberCache.Del, which acquires the write lock first and
deserializes the payload while holding it. -/
theorem C9_amended_lock_discipline :
    deserializePrecedesLock functionCacheSetTrace ∧
    deserializePrecedesLock functionCacheDelTrace ∧
    deserializePrecedesLock endpointCacheSetTrace ∧
    deserializePrecedesLock endpointCacheDelTrace ∧
    deserializePrecedesLock publisherCacheSetTrace ∧
    deserializePrecedesLock publisherCacheDelTrace ∧
    deserializePrecedesLock subscriberCacheSetTrace ∧
    subscriberCacheDelTrace
      = [LockEvent.acquireWriteLock, LockEvent.deserializePayload] := by
  decide

/-- C2 counterexample: a publisher cache holding key "pub1" still holds it
after Del("pub1"), because publisherCache.Del (lines 170-200) removes the
derived-index entry but never deletes the key from the primary map. -/
theorem C2_counterexample :
    mgetN "pub1" (publisherCache.Del
        { cache := some [("pub1", ⟨"f1", "t1", Input⟩)]
          fnInToTopic := [("f1", ["t1"])]
          fnOutToTopic := [] } "pub1" none).cache
      = some ⟨"f1", "t1", Input⟩ := by
  decide

/-- C4 counterexample: overwriting "pub1" with a second binding does not
retract the first binding's index entry.  With v1 = (f1, t1, Input) and
v2 = (f1, t2, Input), Set;Set leaves t1 in the input multi-map of f1, while
Set of v2 alone does not — so the two final states differ semantically. -/
theorem C4_counterexample :
    (match publisherCache.Set initializedPublisherCache "pub1"
        (some ⟨"f1", "t1", Input⟩) with
      | some c1 => publisherCache.Set c1 "pub1" (some ⟨"f1", "t2", Input⟩)
      | none => none)
      = some { cache := some [("pub1", ⟨"f1", "t2", Input⟩)]
               fnInToTopic := [("f1", ["t2", "t1"])]
               fnOutToTopic := [] } ∧
    publisherCache.Set initializedPublisherCache "pub1"
        (some ⟨"f1", "t2", Input⟩)
      = some { cache := some [("pub1", ⟨"f1", "t2", Input⟩)]
               fnInToTopic := [("f1", ["t2"])]
               fnOutToTopic := [] } ∧
    mmHas "f1" "t1" [("f1", ["t2", "t1"])] = true ∧
    mmHas "f1" "t1" [("f1", ["t2"])] = false := by
  decide

/-- C3 counterexample: after the completed sequence Set("pub1", (f1, t1,
Input)); Del("pub1") on a publisher cache with an initialized primary map,
the primary map still holds the Input binding (Del never removes it) while
the input multi-map no longer holds (f1, t1) — the indices are not the
exact image of the primary map. -/
theorem C3_counterexample :
    ∃ c, runPubOps (some initializedPublisherCache)
        [PubOp.set "pub1" (some ⟨"f1", "t1", Input⟩), PubOp.del "pub1" none]
        = some c ∧ ¬ InvP c := by
  refine ⟨{ cache := some [("pub1", ⟨"f1", "t1", Input⟩)]
            fnInToTopic := []
            fnOutToTopic := [] }, rfl, ?_⟩
  intro h
  have h1 := (h.1 "f1" "t1").mpr
    ⟨"pub1", ⟨"f1", "t1", Input⟩, rfl, rfl, rfl, rfl⟩
  exact absurd h1 (by decide)

theorem mdel_mdel {V : Type} (k : String) (m : List (String × V)) :
    mdel k (mdel k m) = mdel k m :=
  mdel_eq_self _ _ (mget_mdel_self _ _)

theorem pubSet_cache_mset (c : publisherCache) (m : List (String × Publisher))
    (k : String) (p : Publisher) (hm : c.cache = some m) :
    ∃ c', publisherCache.Set c k (some p) = some c'
      ∧ c'.cache = some (mset k p m) :=
  ⟨_, pubSet_eq c m k p hm, rfl⟩

theorem pubDel_idem (c : publisherCache) (k : String) (v : Option Publisher) :
    publisherCache.Del (publisherCache.Del c k v) k v
      = publisherCache.Del c k v := by
  cases hp : mgetN k c.cache with
  | none => simp only [pubDel_none c k v hp]
  | some p =>
    have hp2 : mgetN k (publisherCache.Del c k v).cache = some p := by
      rw [pubDel_cache_eq]
      exact hp
    rw [pubDel_eq (publisherCache.Del c k v) k v p hp2]
    rw [pubDel_eq c k v p hp]
    by_cases hIn : p.FunctionEnd = Input
    · have hOut : ¬ p.FunctionEnd = Output := fun h => input_ne_output (hIn.symm.trans h)
      simp only [if_pos hIn, if_neg hOut]
      rw [mmRemove_mmRemove]
    · by_cases hOut : p.FunctionEnd = Output
      · simp only [if_neg hIn, if_pos hOut]
        rw [mmRemove_mmRemove]
      · simp only [if_neg hIn, if_neg hOut]

theorem subDel_noop (c : subscriberCache) (k : String) (s : Subscriber)
    (hwf : WFmm c.topicToFns)
    (habs : mmHas s.TopicID s.FunctionID c.topicToFns = false) :
    subscriberCache.Del c k (some s) = c := by
  rw [subDel_eq, mmRemove_eq_self _ _ _ hwf habs]

theorem subDel_idem (c : subscriberCache) (k : String) (v : Option Subscriber) :
    subscriberCache.Del (subscriberCache.Del c k v) k v
      = subscriberCache.Del c k v := by
  cases v with
  | none => rfl
  | some s =>
    rw [subDel_eq c k s, subDel_eq _ k s]
    show subscriberCache.mk
        (mmRemove s.TopicID s.FunctionID (mmRemove s.TopicID s.FunctionID c.topicToFns))
      = subscriberCache.mk (mmRemove s.TopicID s.FunctionID c.topicToFns)
    rw [mmRemove_mmRemove]

/-- C2 amended: for every publisher cache state in which key k is present in
the primary map with binding p, Del(k, bytes) leaves the primary map exactly
unchanged — k remains present — while the derived-index entry (p.FunctionID,
p.TopicID) is retracted from the multi-map matching p.FunctionEnd. -/
theorem C2_amended_del_keeps_primary (c : publisherCache) (k : String)
    (v : Option Publisher) (p : Publisher) (hp : mgetN k c.cache = some p) :
    (publisherCache.Del c k v).cache = c.cache ∧
    (p.FunctionEnd = Input →
      mmHas p.FunctionID p.TopicID (publisherCache.Del c k v).fnInToTopic
        = false) ∧
    (p.FunctionEnd = Output →
      mmHas p.FunctionID p.TopicID (publisherCache.Del c k v).fnOutToTopic
        = false) := by
  rw [pubDel_eq c k v p hp]
  refine ⟨rfl, fun hIn => ?_, fun hOut => ?_⟩
  · simp only [if_pos hIn]
    exact mmHas_mmRemove_self _ _ _
  · simp only [if_pos hOut]
    exact mmHas_mmRemove_self _ _ _

/-- C2 amended, witnessed at a concrete state with key "pub1" present. -/
theorem C2_amended_witness :
    (publisherCache.Del
        { cache := some [("pub1", ⟨"f1", "t1", Input⟩)]
          fnInToTopic := [("f1", ["t1"])]
          fnOutToTopic := [] } "pub1" none).cache
      = some [("pub1", ⟨"f1", "t1", Input⟩)] :=
  (C2_amended_del_keeps_primary
    { cache := some [("pub1", ⟨"f1", "t1", Input⟩)]
      fnInToTopic := [("f1", ["t1"])]
      fnOutToTopic := [] } "pub1" none ⟨"f1", "t1", Input⟩ rfl).1

/-- C4 amended: when the primary map is initialized, Set(k, v1) followed by
Set(k, v2) leaves the primary map exactly as Set(k, v2) alone does; the
residue of v1 is confined to the derived multi-maps (see the
counterexample), which the code never retracts on overwrite. -/
theorem C4_amended_overwrite_primary (c : publisherCache)
    (m : List (String × Publisher)) (k : String) (p1 p2 : Publisher)
    (hm : c.cache = some m) :
    ∃ c12 c2,
      (match publisherCache.Set c k (some p1) with
        | some c1 => publisherCache.Set c1 k (some p2)
        | none => none) = some c12 ∧
      publisherCache.Set c k (some p2) = some c2 ∧
      c12.cache = c2.cache ∧ c12.cache = some (mset k p2 m) := by
  obtain ⟨c1, h1, hc1⟩ := pubSet_cache_mset c m k p1 hm
  obtain ⟨c12, h12, hc12⟩ := pubSet_cache_mset c1 (mset k p1 m) k p2 hc1
  obtain ⟨c2, h2, hc2⟩ := pubSet_cache_mset c m k p2 hm
  refine ⟨c12, c2, ?_, h2, ?_, ?_⟩
  · rw [h1]
    exact h12
  · rw [hc12, hc2, mset_mset]
  · rw [hc12, mset_mset]

/-- C4 amended, witnessed at the counterexample's inputs. -/
theorem C4_amended_witness :
    ∃ c12 c2,
      (match publisherCache.Set initializedPublisherCache "pub1"
          (some ⟨"f1", "t1", Input⟩) with
        | some c1 => publisherCache.Set c1 "pub1" (some ⟨"f1", "t2", Input⟩)
        | none => none) = some c12 ∧
      publisherCache.Set initializedPublisherCache "pub1"
          (some ⟨"f1", "t2", Input⟩) = some c2 ∧
      c12.cache = c2.cache ∧
      c12.cache = some (mset "pub1" ⟨"f1", "t2", Input⟩ []) :=
  C4_amended_overwrite_primary initializedPublisherCache [] "pub1"
    ⟨"f1", "t1", Input⟩ ⟨"f1", "t2", Input⟩ rfl

/-- C7: a Set whose decoded binding has a FunctionEnd that is neither Input
nor Output stores the binding in the primary map under the given key and
leaves both directional multi-maps exactly unchanged (the error is reported
only on the logging channel, which is outside the cache state). -/
theorem C7_invalid_end_updates_primary_only (c : publisherCache)
    (m : List (String × Publisher)) (k : String) (p : Publisher)
    (hm : c.cache = some m) (h1 : p.FunctionEnd ≠ Input)
    (h2 : p.FunctionEnd ≠ Output) :
    publisherCache.Set c k (some p)
      = some { c with cache := some (mset k p m) } ∧
    mget k (mset k p m) = some p := by
  constructor
  · rw [pubSet_eq c m k p hm]
    simp only [if_neg h1, if_neg h2]
  · exact mget_mset_self k p m

/-- C7 witnessed at the spec's Scenario D inputs. -/
theorem C7_witness :
    publisherCache.Set initializedPublisherCache "pub3"
        (some ⟨"f2", "t3", "bogus"⟩)
      = some { initializedPublisherCache with
               cache := some (mset "pub3" ⟨"f2", "t3", "bogus"⟩ []) } ∧
    mget "pub3" (mset "pub3" (⟨"f2", "t3", "bogus"⟩ : Publisher) [])
      = some ⟨"f2", "t3", "bogus"⟩ :=
  C7_invalid_end_updates_primary_only initializedPublisherCache [] "pub3"
    ⟨"f2", "t3", "bogus"⟩ rfl (by decide) (by decide)

/-- C8: every completed Set or Del on the publisher or subscriber cache
preserves well-formedness of the derived multi-maps: no key is ever left
bound to an empty set (removing the last element removes the key). -/
theorem C8_no_empty_sets :
    (∀ (c : publisherCache) (k : String) (v : Option Publisher)
        (c' : publisherCache),
      WFmm c.fnInToTopic → WFmm c.fnOutToTopic →
      publisherCache.Set c k v = some c' →
      WFmm c'.fnInToTopic ∧ WFmm c'.fnOutToTopic) ∧
    (∀ (c : publisherCache) (k : String) (v : Option Publisher),
      WFmm c.fnInToTopic → WFmm c.fnOutToTopic →
      WFmm (publisherCache.Del c k v).fnInToTopic ∧
      WFmm (publisherCache.Del c k v).fnOutToTopic) ∧
    (∀ (c : subscriberCache) (k : String) (v : Option Subscriber),
      WFmm c.topicToFns → WFmm (subscriberCache.Set c k v).topicToFns) ∧
    (∀ (c : subscriberCache) (k : String) (v : Option Subscriber),
      WFmm c.topicToFns → WFmm (subscriberCache.Del c k v).topicToFns) := by
  refine ⟨?_, ?_, ?_, ?_⟩
  · intro c k v c' hin hout hset
    cases v with
    | none =>
      have h : c = c' := by injection hset
      rw [← h]
      exact ⟨hin, hout⟩
    | some p =>
      cases hc : c.cache with
      | none =>
        unfold publisherCache.Set at hset
        rw [hc] at hset
        exact absurd hset (by simp)
      | some m =>
        rw [pubSet_eq c m k p hc] at hset
        injection hset with h
        rw [← h]
        constructor
        · by_cases hIn : p.FunctionEnd = Input
          · simp only [if_pos hIn]
            exact WFmm_mmInsert _ _ _ hin
          · simp only [if_neg hIn]
            exact hin
        · by_cases hOut : p.FunctionEnd = Output
          · simp only [if_pos hOut]
            exact WFmm_mmInsert _ _ _ hout
          · simp only [if_neg hOut]
            exact hout
  · intro c k v hin hout
    cases hp : mgetN k c.cache with
    | none =>
      rw [pubDel_none c k v hp]
      exact ⟨hin, hout⟩
    | some p =>
      rw [pubDel_eq c k v p hp]
      constructor
      · by_cases hIn : p.FunctionEnd = Input
        · simp only [if_pos hIn]
          exact WFmm_mmRemove _ _ _ hin
        · simp only [if_neg hIn]
          exact hin
      · by_cases hOut : p.FunctionEnd = Output
        · simp only [if_pos hOut]
          exact WFmm_mmRemove _ _ _ hout
        · simp only [if_neg hOut]
          exact hout
  · intro c k v h
    cases v with
    | none => exact h
    | some s =>
      rw [subSet_eq]
      exact WFmm_mmInsert _ _ _ h
  · intro c k v h
    cases v with
    | none => exact h
    | some s =>
      rw [subDel_eq]
      exact WFmm_mmRemove _ _ _ h

/-- C8 witnessed on a concrete Del that empties a derived set. -/
theorem C8_witness :
    WFmm (publisherCache.Del
      { cache := some [("pub1", ⟨"f1", "t1", Input⟩)]
        fnInToTopic := [("f1", ["t1"])]
        fnOutToTopic := [] } "pub1" none).fnInToTopic ∧
    WFmm (publisherCache.Del
      { cache := some [("pub1", ⟨"f1", "t1", Input⟩)]
        fnInToTopic := [("f1", ["t1"])]
        fnOutToTopic := [] } "pub1" none).fnOutToTopic :=
  C8_no_empty_sets.2.1
    { cache := some [("pub1", ⟨"f1", "t1", Input⟩)]
      fnInToTopic := [("f1", ["t1"])]
      fnOutToTopic := [] } "pub1" none (by decide) (by decide)

/-- C6: for every cache, Del of an absent entry is a silent no-op, and Del
is idempotent: running the same Del twice equals running it once.  For the
subscriber cache absence means the payload's (TopicID, FunctionID) pair is
not in the multi-map, stated over well-formed states (the only ones
reachable, by C8). -/
theorem C6_idempotent_delete :
    (∀ (c : functionCache) (k : String) (v : Option Function),
      mget k c.cache = none → functionCache.Del c k v = c) ∧
    (∀ (c : functionCache) (k : String) (v : Option Function),
      functionCache.Del (functionCache.Del c k v) k v
        = functionCache.Del c k v) ∧
    (∀ (c : endpointCache) (k : String) (v : Option Endpoint),
      mget k c.cache = none → endpointCache.Del c k v = c) ∧
    (∀ (c : endpointCache) (k : String) (v : Option Endpoint),
      endpointCache.Del (endpointCache.Del c k v) k v
        = endpointCache.Del c k v) ∧
    (∀ (c : publisherCache) (k : String) (v : Option Publisher),
      mgetN k c.cache = none → publisherCache.Del c k v = c) ∧
    (∀ (c : publisherCache) (k : String) (v : Option Publisher),
      publisherCache.Del (publisherCache.Del c k v) k v
        = publisherCache.Del c k v) ∧
    (∀ (c : subscriberCache) (k : String) (s : Subscriber),
      WFmm c.topicToFns →
      mmHas s.TopicID s.FunctionID c.topicToFns = false →
      subscriberCache.Del c k (some s) = c) ∧
    (∀ (c : subscriberCache) (k : String) (v : Option Subscriber),
      subscriberCache.Del (subscriberCache.Del c k v) k v
        = subscriberCache.Del c k v) := by
  refine ⟨?_, ?_, ?_, ?_, fun c k v h => pubDel_none c k v h, pubDel_idem,
    subDel_noop, subDel_idem⟩
  · intro c k v h
    show ({ c with cache := mdel k c.cache } : functionCache) = c
    rw [mdel_eq_self _ _ h]
  · intro c k v
    show ({ c with cache := mdel k (mdel k c.cache) } : functionCache)
      = { c with cache := mdel k c.cache }
    rw [mdel_mdel]
  · intro c k v h
    show ({ c with cache := mdel k c.cache } : endpointCache) = c
    rw [mdel_eq_self _ _ h]
  · intro c k v
    show ({ c with cache := mdel k (mdel k c.cache) } : endpointCache)
      = { c with cache := mdel k c.cache }
    rw [mdel_mdel]

/-- C6 witnessed: a Del of an absent key on each cache kind, with the
hypotheses discharged at concrete states. -/
theorem C6_witness :
    functionCache.Del newFunctionCache "fn1" none = newFunctionCache ∧
    endpointCache.Del newEndpointCache "ep1" none = newEndpointCache ∧
    publisherCache.Del newPublisherCache "pub1" none = newPublisherCache ∧
    subscriberCache.Del { topicToFns := [("t1", ["g1"])] } "sub1"
        (some ⟨"t1", "f9"⟩)
      = { topicToFns := [("t1", ["g1"])] } :=
  ⟨C6_idempotent_delete.1 newFunctionCache "fn1" none rfl,
   C6_idempotent_delete.2.2.1 newEndpointCache "ep1" none rfl,
   C6_idempotent_delete.2.2.2.2.1 newPublisherCache "pub1" none rfl,
   C6_idempotent_delete.2.2.2.2.2.2.1 { topicToFns := [("t1", ["g1"])] }
     "sub1" ⟨"t1", "f9"⟩ (by decide) (by decide)⟩

theorem exists_binding_mset (m : List (String × Publisher)) (k : String)
    (p : Publisher) (hk : mget k m = none) (fn t e : String) :
    (∃ k' p', mget k' (mset k p m) = some p' ∧ p'.FunctionID = fn ∧
        p'.TopicID = t ∧ p'.FunctionEnd = e) ↔
      ((∃ k' p', mget k' m = some p' ∧ p'.FunctionID = fn ∧ p'.TopicID = t ∧
          p'.FunctionEnd = e) ∨
        (p.FunctionID = fn ∧ p.TopicID = t ∧ p.FunctionEnd = e)) := by
  constructor
  · rintro ⟨k', p', hget, h1, h2, h3⟩
    by_cases hk' : k' = k
    · subst hk'
      rw [mget_mset_self] at hget
      injection hget with hp'
      subst hp'
      exact Or.inr ⟨h1, h2, h3⟩
    · rw [mget_mset_ne _ _ _ _ hk'] at hget
      exact Or.inl ⟨k', p', hget, h1, h2, h3⟩
  · rintro (⟨k', p', hget, h1, h2, h3⟩ | ⟨h1, h2, h3⟩)
    · have hk' : k' ≠ k := by
        intro hh
        rw [hh, hk] at hget
        cases hget
      refine ⟨k', p', ?_, h1, h2, h3⟩
      rw [mget_mset_ne _ _ _ _ hk']
      exact hget
    · exact ⟨k, p, mget_mset_self _ _ _, h1, h2, h3⟩

theorem invP_initialized : InvP initializedPublisherCache := by
  constructor <;> intro fn t
  · constructor
    · intro h
      simp [initializedPublisherCache, mmHas, mget] at h
    · rintro ⟨k, p, hk, -, -, -⟩
      simp [initializedPublisherCache, mgetN, mget] at hk
  · constructor
    · intro h
      simp [initializedPublisherCache, mmHas, mget] at h
    · rintro ⟨k, p, hk, -, -, -⟩
      simp [initializedPublisherCache, mgetN, mget] at hk

theorem invP_set_fresh (c : publisherCache) (m : List (String × Publisher))
    (k : String) (p : Publisher) (hm : c.cache = some m)
    (hk : mget k m = none) (hInv : InvP c) :
    ∃ c', publisherCache.Set c k (some p) = some c' ∧
      c'.cache = some (mset k p m) ∧ InvP c' := by
  obtain ⟨hInvIn, hInvOut⟩ := hInv
  simp only [hm, mgetN] at hInvIn hInvOut
  refine ⟨_, pubSet_eq c m k p hm, rfl, ?_, ?_⟩
  · intro fn t
    simp only [mgetN]
    by_cases hIn : p.FunctionEnd = Input
    · simp only [if_pos hIn]
      rw [mmHas_mmInsert, exists_binding_mset m k p hk fn t Input, hInvIn fn t]
      constructor
      · rintro (⟨h1, h2⟩ | hOld)
        · exact Or.inr ⟨h1.symm, h2.symm, hIn⟩
        · exact Or.inl hOld
      · rintro (hOld | ⟨h1, h2, h3⟩)
        · exact Or.inr hOld
        · exact Or.inl ⟨h1.symm, h2.symm⟩
    · simp only [if_neg hIn]
      rw [exists_binding_mset m k p hk fn t Input, hInvIn fn t]
      constructor
      · exact Or.inl
      · rintro (hOld | ⟨-, -, h3⟩)
        · exact hOld
        · exact absurd h3 hIn
  · intro fn t
    simp only [mgetN]
    by_cases hOut : p.FunctionEnd = Output
    · simp only [if_pos hOut]
      rw [mmHas_mmInsert, exists_binding_mset m k p hk fn t Output, hInvOut fn t]
      constructor
      · rintro (⟨h1, h2⟩ | hOld)
        · exact Or.inr ⟨h1.symm, h2.symm, hOut⟩
        · exact Or.inl hOld
      · rintro (hOld | ⟨h1, h2, h3⟩)
        · exact Or.inr hOld
        · exact Or.inl ⟨h1.symm, h2.symm⟩
    · simp only [if_neg hOut]
      rw [exists_binding_mset m k p hk fn t Output, hInvOut fn t]
      constructor
      · exact Or.inl
      · rintro (hOld | ⟨-, -, h3⟩)
        · exact hOld
        · exact absurd h3 hOut

theorem runSets_invP (ops : List (String × Publisher)) :
    ∀ (c : publisherCache) (m : List (String × Publisher)),
      c.cache = some m → InvP c →
      (∀ op ∈ ops, mget op.1 m = none) →
      (ops.map Prod.fst).Nodup →
      ∃ c', runPubOps (some c) (ops.map fun op => PubOp.set op.1 (some op.2))
          = some c' ∧ InvP c' := by
  induction ops with
  | nil => exact fun c m hm hInv _ _ => ⟨c, rfl, hInv⟩
  | cons op rest ih =>
    intro c m hm hInv hfresh hnodup
    obtain ⟨c1, hset, hc1, hInv1⟩ :=
      invP_set_fresh c m op.1 op.2 hm (hfresh op (List.mem_cons_self op rest))
        hInv
    rw [List.map_cons, List.nodup_cons] at hnodup
    obtain ⟨hnotin, hnodup2⟩ := hnodup
    obtain ⟨c', hrun, hInv2⟩ := ih c1 (mset op.1 op.2 m) hc1 hInv1
      (fun op' hop' => by
        have hne : op'.1 ≠ op.1 := by
          intro hh
          exact hnotin (hh ▸ List.mem_map_of_mem Prod.fst hop')
        rw [mget_mset_ne _ _ _ _ hne]
        exact hfresh op' (List.mem_cons_of_mem op hop'))
      hnodup2
    refine ⟨c', ?_, hInv2⟩
    rw [List.map_cons]
    simp only [runPubOps]
    rw [hset]
    exact hrun

/-- C3 amended: after every completed sequence of Set operations with
pairwise-distinct keys and decodable payloads, starting from a publisher
cache with an initialized, empty primary map, the two directional
multi-maps are the exact image of the primary map — including when a
binding carries an invalid FunctionEnd, since the invariant's conditions
mention only Input and Output.  The two exclusions are forced by the
counterexample and its overwrite variant: a Del retracts the index entry
but leaves the primary binding in place, and an overwrite of an existing
key leaves the old index entry in place. -/
theorem C3_amended_sets_exact_image (ops : List (String × Publisher))
    (hnodup : (ops.map Prod.fst).Nodup) :
    ∃ c', runPubOps (some initializedPublisherCache)
        (ops.map fun op => PubOp.set op.1 (some op.2)) = some c' ∧ InvP c' :=
  runSets_invP ops initializedPublisherCache [] rfl invP_initialized
    (fun _ _ => rfl) hnodup

/-- C3 amended, witnessed on a concrete three-Set sequence that includes an
invalid-FunctionEnd binding. -/
theorem C3_amended_witness :
    ∃ c', runPubOps (some initializedPublisherCache)
        ([("pub1", (⟨"f1", "t1", Input⟩ : Publisher)),
          ("pub2", (⟨"f1", "t2", Output⟩ : Publisher)),
          ("pub3", (⟨"f2", "t3", "bogus"⟩ : Publisher))].map
          fun op => PubOp.set op.1 (some op.2)) = some c' ∧ InvP c' :=
  C3_amended_sets_exact_image
    [("pub1", ⟨"f1", "t1", Input⟩), ("pub2", ⟨"f1", "t2", Output⟩),
     ("pub3", ⟨"f2", "t3", "bogus"⟩)]
    (by decide)

end Targetcache
